import Mathlib

/-!
Verification of the discord-recipe-bot event server (`event_server/main.py`).

Strings are modelled as `List Char` (Python strings are sequences of code
points, and `len` counts code points). The response chunker, the LangGraph
thread resolution, and the `!recipe` delivery pipeline are embedded as pure
Lean functions; the pipeline's side effects are recorded as an explicit
trace of `Effect`s, with the external world's responses (fetch outcomes,
agent messages, per-send transport failures) supplied by an environment
record.
-/

/-- Discord message character limit (`DISCORD_MAX_LENGTH = 2000`). -/
def DISCORD_MAX_LENGTH : Nat := 2000

/-- Name of the shared Discord thread (`SHARED_THREAD_NAME`). -/
def SHARED_THREAD_NAME : List Char := "Recipe Bot Convo".data

/-- The characters Python's `str.splitlines` treats as line boundaries. -/
def isLineBreak (c : Char) : Bool :=
  c = '\n' || c = '\r' || c = '\x0b' || c = '\x0c' ||
  c = '\x1c' || c = '\x1d' || c = '\x1e' || c = Char.ofNat 0x85 ||
  c = Char.ofNat 0x2028 || c = Char.ofNat 0x2029

/-- Python's `text.splitlines(True)`: split into lines, each keeping its
trailing line-break characters; `\r\n` counts as a single break. The empty
string yields no lines. -/
def splitlinesKeepends : List Char → List (List Char)
  | [] => []
  | '\r' :: '\n' :: rest => ['\r', '\n'] :: splitlinesKeepends rest
  | c :: rest =>
    if isLineBreak c then
      [c] :: splitlinesKeepends rest
    else
      match splitlinesKeepends rest with
      | [] => [[c]]
      | l :: ls => (c :: l) :: ls

/-- The chunk-accumulation loop of the `recipe` handler (main.py lines
143-150): fold over the lines, closing the current chunk whenever adding
the next line would push it past `maxLen`, and append the final current
chunk at the end. -/
def chunkLoop (maxLen : Nat) : List (List Char) → List Char → List (List Char)
  | [], cur => [cur]
  | line :: rest, cur =>
    if cur.length + line.length > maxLen then
      cur :: chunkLoop maxLen rest line
    else
      chunkLoop maxLen rest (cur ++ line)

/-- The Chunker contract `chunk(text, maxLength)` of the spec: the inline
splitting code of main.py lines 141-150 with `DISCORD_MAX_LENGTH`
abstracted to the parameter `maxLen`. -/
def chunk (text : List Char) (maxLen : Nat) : List (List Char) :=
  chunkLoop maxLen (splitlinesKeepends text) []

example : chunk "ab\ncd".data 3 = ["ab\n".data, "cd".data] := by decide
example : chunk [] 5 = [[]] := by decide
example : chunk "XXXXXXX\nY".data 5 = [[], "XXXXXXX\n".data, "Y".data] := by decide


set_option maxHeartbeats 2000000 in
/-- Concatenating the lines of `splitlinesKeepends` gives back the text. -/
theorem splitlinesKeepends_flatten (s : List Char) :
    (splitlinesKeepends s).flatten = s := by
  induction s using splitlinesKeepends.induct with
  | case1 => rfl
  | case2 rest ih =>
    rw [splitlinesKeepends]
    simpa using ih
  | case3 c rest h1 h2 ih =>
    rw [splitlinesKeepends.eq_3 c rest h1, if_pos h2]
    simpa using ih
  | case4 c rest h1 h2 h3 ih =>
    rw [splitlinesKeepends.eq_3 c rest h1, if_neg h2, h3]
    rw [h3] at ih
    simp at ih
    simp [ih]
  | case5 c rest h1 h2 l ls h3 ih =>
    rw [splitlinesKeepends.eq_3 c rest h1, if_neg h2, h3]
    rw [h3] at ih
    simpa using ih

/-- Every line produced by `splitlinesKeepends` is nonempty. -/
theorem splitlinesKeepends_ne_nil (s : List Char) :
    ∀ l ∈ splitlinesKeepends s, l ≠ [] := by
  induction s using splitlinesKeepends.induct with
  | case1 => simp [splitlinesKeepends]
  | case2 rest ih =>
    rw [splitlinesKeepends]
    intro l hl
    rcases List.mem_cons.mp hl with h | h
    · simp [h]
    · exact ih l h
  | case3 c rest h1 h2 ih =>
    rw [splitlinesKeepends.eq_3 c rest h1, if_pos h2]
    intro l hl
    rcases List.mem_cons.mp hl with h | h
    · simp [h]
    · exact ih l h
  | case4 c rest h1 h2 h3 ih =>
    rw [splitlinesKeepends.eq_3 c rest h1, if_neg h2, h3]
    intro l hl
    rcases List.mem_cons.mp hl with h | h
    · simp [h]
    · simp at h
  | case5 c rest h1 h2 l ls h3 ih =>
    rw [splitlinesKeepends.eq_3 c rest h1, if_neg h2, h3]
    intro x hx
    rcases List.mem_cons.mp hx with h | h
    · simp [h]
    · exact ih x (h3 ▸ List.mem_cons_of_mem l h)

/-- The chunk loop never returns an empty list of chunks. -/
theorem chunkLoop_ne_nil (maxLen : Nat) :
    ∀ lines cur, chunkLoop maxLen lines cur ≠ [] := by
  intro lines
  induction lines with
  | nil => intro cur; simp [chunkLoop]
  | cons line rest ih =>
    intro cur
    rw [chunkLoop]
    split
    · simp
    · exact ih (cur ++ line)

/-- Concatenating all chunks produced by the loop yields the pending chunk
followed by the remaining lines. -/
theorem chunkLoop_flatten (maxLen : Nat) :
    ∀ lines cur, (chunkLoop maxLen lines cur).flatten = cur ++ lines.flatten := by
  intro lines
  induction lines with
  | nil => intro cur; simp [chunkLoop]
  | cons line rest ih =>
    intro cur
    rw [chunkLoop]
    split
    · simp [ih line]
    · simp [ih (cur ++ line)]

/-- If the pending chunk is nonempty and all remaining lines are nonempty,
every produced chunk is nonempty. -/
theorem chunkLoop_all_ne_nil (maxLen : Nat) :
    ∀ lines cur, cur ≠ [] → (∀ l ∈ lines, l ≠ []) →
      ∀ c ∈ chunkLoop maxLen lines cur, c ≠ [] := by
  intro lines
  induction lines with
  | nil =>
    intro cur hcur _ c hc
    simp [chunkLoop] at hc
    simpa [hc] using hcur
  | cons line rest ih =>
    intro cur hcur hlines c hc
    rw [chunkLoop] at hc
    split at hc
    · rcases List.mem_cons.mp hc with h | h
      · simpa [h] using hcur
      · exact ih line (hlines line (List.mem_cons_self line rest))
          (fun l hl => hlines l (List.mem_cons_of_mem line hl)) c h
    · refine ih (cur ++ line) (by simp [hcur]) ?_ c hc
      exact fun l hl => hlines l (List.mem_cons_of_mem line hl)

/-- Every chunk the loop emits before the last one either fits in `maxLen`
or was installed verbatim from the line stream (the pending chunk is
assumed to satisfy the same invariant). -/
theorem chunkLoop_dropLast_inv (maxLen : Nat) (P : List Char → Prop) :
    ∀ lines cur, (cur.length ≤ maxLen ∨ P cur) → (∀ l ∈ lines, P l) →
      ∀ c ∈ (chunkLoop maxLen lines cur).dropLast, c.length ≤ maxLen ∨ P c := by
  intro lines
  induction lines with
  | nil =>
    intro cur _ _ c hc
    simp [chunkLoop] at hc
  | cons line rest ih =>
    intro cur hcur hlines c hc
    have hrest : ∀ l ∈ rest, P l := fun l hl => hlines l (List.mem_cons_of_mem line hl)
    rw [chunkLoop] at hc
    split at hc
    · obtain ⟨y, ys, hys⟩ : ∃ y ys, chunkLoop maxLen rest line = y :: ys := by
        cases h : chunkLoop maxLen rest line with
        | nil => exact absurd h (chunkLoop_ne_nil maxLen rest line)
        | cons y ys => exact ⟨y, ys, rfl⟩
      rw [hys, List.dropLast_cons₂] at hc
      rcases List.mem_cons.mp hc with h | h
      · exact h ▸ hcur
      · refine ih line (Or.inr (hlines line (List.mem_cons_self line rest))) hrest c ?_
        rw [hys]
        exact h
    · rename_i hfit
      refine ih (cur ++ line) (Or.inl ?_) hrest c hc
      rw [List.length_append]
      omega

/-- While the pending chunk plus a whole group of lines still fits in
`maxLen`, the loop absorbs the entire group into the pending chunk. -/
theorem chunkLoop_absorb_group (maxLen : Nat) :
    ∀ (g : List (List Char)) (rest : List (List Char)) (cur : List Char),
      cur.length + g.flatten.length ≤ maxLen →
      chunkLoop maxLen (g ++ rest) cur = chunkLoop maxLen rest (cur ++ g.flatten) := by
  intro g
  induction g with
  | nil => intro rest cur _; simp
  | cons line g' ih =>
    intro rest cur hfit
    simp only [List.flatten_cons, List.length_append] at hfit
    rw [List.cons_append, chunkLoop, if_neg (by omega)]
    rw [ih rest (cur ++ line) (by rw [List.length_append]; omega)]
    simp

/-- Monotonicity of the number of chunks in the pending chunk: a shorter
pending chunk never forces more chunks, and any pending chunk costs at
most one extra chunk over an empty pending chunk. -/
theorem chunkLoop_length_mono (maxLen : Nat) :
    ∀ lines : List (List Char),
      (∀ x y : List Char, x.length ≤ y.length →
        (chunkLoop maxLen lines x).length ≤ (chunkLoop maxLen lines y).length) ∧
      (∀ x : List Char,
        (chunkLoop maxLen lines x).length ≤ (chunkLoop maxLen lines []).length + 1) := by
  intro lines
  induction lines with
  | nil =>
    constructor
    · intro x y _; simp [chunkLoop]
    · intro x; simp [chunkLoop]
  | cons line rest ih =>
    obtain ⟨ih1, ih2⟩ := ih
    have key : ∀ x : List Char,
        (chunkLoop maxLen (line :: rest) x).length ≤
          (chunkLoop maxLen rest line).length + 1 := by
      intro x
      rw [chunkLoop]
      split
      · simp
      · rename_i hfit
        calc (chunkLoop maxLen rest (x ++ line)).length
            ≤ (chunkLoop maxLen rest []).length + 1 := ih2 (x ++ line)
          _ ≤ (chunkLoop maxLen rest line).length + 1 := by
              exact Nat.add_le_add_right (ih1 [] line (by simp)) 1
    have base : ∀ x : List Char,
        (chunkLoop maxLen rest line).length ≤ (chunkLoop maxLen (line :: rest) x).length := by
      intro x
      rw [chunkLoop]
      split
      · simp
      · rename_i hfit
        exact ih1 line (x ++ line) (by rw [List.length_append]; omega)
    constructor
    · intro x y hxy
      rw [chunkLoop, chunkLoop]
      by_cases hx : x.length + line.length > maxLen
      · rw [if_pos hx, if_pos (by omega)]
        simp
      · rw [if_neg hx]
        by_cases hy : y.length + line.length > maxLen
        · rw [if_pos hy]
          simp only [List.length_cons]
          calc (chunkLoop maxLen rest (x ++ line)).length
              ≤ (chunkLoop maxLen rest []).length + 1 := ih2 (x ++ line)
            _ ≤ (chunkLoop maxLen rest line).length + 1 := by
                exact Nat.add_le_add_right (ih1 [] line (by simp)) 1
        · rw [if_neg hy]
          refine ih1 (x ++ line) (y ++ line) ?_
          rw [List.length_append, List.length_append]
          omega
    · intro x
      calc (chunkLoop maxLen (line :: rest) x).length
          ≤ (chunkLoop maxLen rest line).length + 1 := key x
        _ ≤ (chunkLoop maxLen (line :: rest) []).length + 1 :=
            Nat.add_le_add_right (base []) 1

/-- Greedy minimality: any partition of the line stream into consecutive
groups, where every nonempty group's text fits in `maxLen`, has at least
as many groups as the loop produces chunks. -/
theorem chunkLoop_minimal (maxLen : Nat) :
    ∀ (P : List (List (List Char))),
      (∀ g ∈ P, g ≠ [] → g.flatten.length ≤ maxLen) → P ≠ [] →
      (chunkLoop maxLen P.flatten []).length ≤ P.length := by
  intro P
  induction P with
  | nil => intro _ h; exact absurd rfl h
  | cons g P' ih =>
    intro hbound _
    have hbound' : ∀ g' ∈ P', g' ≠ [] → g'.flatten.length ≤ maxLen :=
      fun g' hg' => hbound g' (List.mem_cons_of_mem g hg')
    by_cases hP' : P' = []
    · subst hP'
      by_cases hg : g = []
      · subst hg; simp [chunkLoop]
      · have hfit : g.flatten.length ≤ maxLen := hbound g (List.mem_cons_self g []) hg
        rw [List.flatten_cons, List.flatten_nil, List.append_nil]
        have := chunkLoop_absorb_group maxLen g [] [] (by simpa using hfit)
        simp only [List.append_nil] at this
        rw [this, chunkLoop]
        simp
    · by_cases hg : g = []
      · subst hg
        rw [List.flatten_cons, List.nil_append]
        calc (chunkLoop maxLen P'.flatten []).length
            ≤ P'.length := ih hbound' hP'
          _ ≤ P'.length + 1 := Nat.le_succ _
      · have hfit : g.flatten.length ≤ maxLen := hbound g (List.mem_cons_self g P') hg
        rw [List.flatten_cons]
        rw [chunkLoop_absorb_group maxLen g P'.flatten [] (by simpa using hfit)]
        calc (chunkLoop maxLen P'.flatten ([] ++ g.flatten)).length
            ≤ (chunkLoop maxLen P'.flatten []).length + 1 :=
              (chunkLoop_length_mono maxLen P'.flatten).2 ([] ++ g.flatten)
          _ ≤ P'.length + 1 := Nat.add_le_add_right (ih hbound' hP') 1
          _ = (g :: P').length := by simp

/-- The fixed namespace constant `uuid.NAMESPACE_DNS` used by the id
derivation, in its standard string form. -/
def NAMESPACE_DNS : List Char := "6ba7b810-9dad-11d1-80b4-00c04fd430c8".data

/-- Python string interpolation of `ctx.guild.id if ctx.guild else None`
inside the f-string: an integer renders in decimal, `None` renders as
the literal text `None`. -/
def pyGuildIdStr : Option Nat → List Char
  | none => "None".data
  | some n => (Nat.repr n).data

/-- The literal name hashed for the scope: `f"DISCORD_GUILD:{guild_id}"`
(main.py line 123). -/
def scopeKeyString (guildId : Option Nat) : List Char :=
  "DISCORD_GUILD:".data ++ pyGuildIdStr guildId

/-- The remote-thread id `uuid.uuid5(uuid.NAMESPACE_DNS,
f"DISCORD_GUILD:{guild_id}")`. The `uuid5` hash itself lives in Python's
standard library (an external collaborator), so it is passed in as a
function argument; the repository's code supplies exactly the namespace
constant and the scope string. -/
def deriveLgThreadId (uuid5 : List Char → List Char → List Char)
    (guildId : Option Nat) : List Char :=
  uuid5 NAMESPACE_DNS (scopeKeyString guildId)

/-- A LangGraph thread object; only its `thread_id` field is read. -/
structure LgThread where
  threadId : List Char
deriving DecidableEq

/-- Failure modes a remote fetch can surface, distinguishing genuine
not-found from transport/auth/unexpected errors. -/
inductive LgError
  | notFound
  | network
  | auth
  | unexpected
deriving DecidableEq

/-- The body of `_create_or_fetch_lg_thread` (main.py lines 80-84): call
`threads.get`; on ANY exception fall through (`except Exception: pass`)
and call `threads.create` with the same id, returning its result. -/
def create_or_fetch_lg_thread
    (get : List Char → Except LgError LgThread)
    (create : List Char → Except LgError LgThread)
    (threadUuid : List Char) : Except LgError LgThread :=
  match get threadUuid with
  | .ok t => .ok t
  | .error _ => create threadUuid

/-- The delivery destination resolved by `_get_shared_thread`. -/
inductive Target
  | currentChannel
  | existingSharedThread
  | newSharedThread
deriving DecidableEq

/-- Observable actions of one `!recipe` request, in program order.
`dSend`/`dCreateThread` are chat-platform operations; `lgGet`,
`lgCreate` and `lgRun` are remote-agent calls; `sleepOne` is the
1-second inter-chunk pacing; `sendErrLog` records the caught
`HTTPException` of the send with the given chunk index; `errorReply`
is the `recipe_error` handler's `ctx.send`. -/
inductive Effect
  | dSend (tgt : Target) (content : List Char)
  | dCreateThread (name : List Char)
  | lgGet (threadUuid : List Char)
  | lgCreate (threadUuid : List Char)
  | lgRun (threadId : List Char) (question : List Char) (userId : Nat)
  | sleepOne
  | sendErrLog (k : Nat)
  | errorReply
deriving DecidableEq

/-- The external world's responses for one `!recipe` request: the inbound
command data, the shape of the Discord channel, and the outcomes of the
remote calls and of each outbound send. -/
structure RecipeEnv where
  question : Option (List Char)
  guildId : Option Nat
  userId : Nat
  isTextChannel : Bool
  sharedThreadExists : Bool
  lgGetFails : Bool
  lgCreateFails : Bool
  lgGotThread : LgThread
  lgCreatedThread : LgThread
  runFails : Bool
  runMessages : List (List Char)
  sendFails : Nat → Bool
  hintSendFails : Bool

/-- `_get_shared_thread` (main.py lines 43-66): a DM-like channel is used
directly; otherwise an existing thread named `SHARED_THREAD_NAME` is
reused, and failing that a new one is created. Returns the effects
performed and the resolved delivery target. -/
def get_shared_thread (env : RecipeEnv) : List Effect × Target :=
  if env.isTextChannel = false then ([], .currentChannel)
  else if env.sharedThreadExists then ([], .existingSharedThread)
  else ([.dCreateThread SHARED_THREAD_NAME], .newSharedThread)

/-- The per-chunk send loop (main.py lines 153-158): each chunk is sent
inside `try/except discord.errors.HTTPException`; a failure is printed
(recorded as `sendErrLog k`) and the loop continues; `asyncio.sleep(1)`
runs after every chunk. -/
def deliverChunks (env : RecipeEnv) (tgt : Target) :
    List (List Char) → Nat → List Effect
  | [], _ => []
  | c :: rest, k =>
    [.dSend tgt c] ++ (if env.sendFails k then [.sendErrLog k] else []) ++ [.sleepOne]
      ++ deliverChunks env tgt rest (k + 1)

/-- The Deliver step (main.py lines 139-164): send the response as one
message when it fits in `DISCORD_MAX_LENGTH`, otherwise chunk it and send
each chunk with pacing. -/
def deliver (env : RecipeEnv) (tgt : Target) (response : List Char) : List Effect :=
  if DISCORD_MAX_LENGTH < response.length then
    deliverChunks env tgt (chunk response DISCORD_MAX_LENGTH) 0
  else
    [.dSend tgt response] ++ (if env.sendFails 0 then [.sendErrLog 0] else [])

/-- The tail of the `recipe` handler after thread resolution: invoke the
agent with `runs.wait`, take `messages[-1]` as the answer (an empty
message list raises and lands in `recipe_error`), then deliver. -/
def recipeAfterResolve (env : RecipeEnv) (q : List Char) (tgt : Target)
    (fx : List Effect) (lgt : LgThread) : List Effect :=
  let fxr := fx ++ [.lgRun lgt.threadId q env.userId]
  if env.runFails then fxr ++ [.errorReply]
  else
    match env.runMessages.getLast? with
    | none => fxr ++ [.errorReply]
    | some response => fxr ++ deliver env tgt response

/-- The usage hint sent for an empty or absent question (main.py 116). -/
def USAGE_HINT : List Char :=
  "Please provide a question. Usage: `!recipe <your question>`".data

/-- The `!recipe` command handler (main.py lines 101-164) as a trace
function. An empty or absent question sends the usage hint and stops
(an uncaught failure of that send lands in `recipe_error`); otherwise
the shared Discord thread is bound, the LangGraph thread is fetched or
created, the agent is run, and the answer is delivered. -/
def recipe (uuid5 : List Char → List Char → List Char) (env : RecipeEnv) : List Effect :=
  if env.question = none ∨ env.question = some [] then
    (get_shared_thread env).1 ++ [.dSend (get_shared_thread env).2 USAGE_HINT]
      ++ (if env.hintSendFails then [.errorReply] else [])
  else
    let q := env.question.getD []
    let fx1 := (get_shared_thread env).1
    let tgt := (get_shared_thread env).2
    let uid := deriveLgThreadId uuid5 env.guildId
    if env.lgGetFails then
      if env.lgCreateFails then
        fx1 ++ [.lgGet uid, .lgCreate uid, .errorReply]
      else
        recipeAfterResolve env q tgt (fx1 ++ [.lgGet uid, .lgCreate uid]) env.lgCreatedThread
    else
      recipeAfterResolve env q tgt (fx1 ++ [.lgGet uid]) env.lgGotThread

/-- Projection of an effect to its outbound message send, if it is one. -/
def sendOf : Effect → Option (Target × List Char)
  | .dSend tgt content => some (tgt, content)
  | _ => none

/-- The outbound message sends of a trace, in order. -/
def sends (tr : List Effect) : List (Target × List Char) :=
  tr.filterMap sendOf

/-- Whether an effect is a call against the remote agent service. -/
def isRemoteCall : Effect → Bool
  | .lgGet _ => true
  | .lgCreate _ => true
  | .lgRun _ _ _ => true
  | _ => false

/-- Whether an effect is a logged per-chunk send failure. -/
def isSendErrLog : Effect → Bool
  | .sendErrLog _ => true
  | _ => false

/-- The inbound message as seen by `on_message`. -/
structure MsgEnv where
  authorIsBot : Bool
  attachments : Nat

/-- Observable actions of the `on_message` handler. -/
inductive MsgEffect
  | printAttachment
  | processCommands
deriving DecidableEq

/-- The `on_message` event handler (main.py lines 91-99): a message from
the bot itself returns immediately; otherwise any attachments are
printed and the commands are dispatched. -/
def on_message (env : MsgEnv) : List MsgEffect :=
  if env.authorIsBot then []
  else List.replicate env.attachments .printAttachment ++ [.processCommands]

/-- C1: for every input text and positive maxLength, concatenating all
chunks produced by the Chunker, in order, yields exactly the original
text, newlines included. -/
theorem chunk_concat_roundtrip (text : List Char) (maxLen : Nat) (h : 0 < maxLen) :
    (chunk text maxLen).flatten = text := by
  unfold chunk
  rw [chunkLoop_flatten, splitlinesKeepends_flatten]
  simp

/-- Witness for `chunk_concat_roundtrip` at a concrete input. -/
theorem chunk_concat_roundtrip_wit :
    0 < 3 ∧ (chunk "ab\ncd".data 3).flatten = "ab\ncd".data :=
  ⟨by decide, chunk_concat_roundtrip "ab\ncd".data 3 (by decide)⟩

/-- Counterexample to C3 as stated: with maxLength 5 and an input whose
first line has 8 characters, the middle chunk (not the last) has length
8 > 5, because an oversized line is emitted unsplit. -/
theorem chunk_nonlast_bound_cex :
    0 < 5 ∧ ¬ (∀ c ∈ (chunk "XXXXXXX\nY".data 5).dropLast, c.length ≤ 5) := by
  decide

/-- C3 amended: every chunk except possibly the last either has length at
most maxLength, or is a single unsplit input line (necessarily one
longer than maxLength). -/
theorem chunk_nonlast_le_or_single_line (text : List Char) (maxLen : Nat)
    (h : 0 < maxLen) :
    ∀ c ∈ (chunk text maxLen).dropLast,
      c.length ≤ maxLen ∨ c ∈ splitlinesKeepends text := by
  intro c hc
  exact chunkLoop_dropLast_inv maxLen (fun l => l ∈ splitlinesKeepends text)
    (splitlinesKeepends text) [] (Or.inl (by simp)) (fun l hl => hl) c hc

/-- Witness for `chunk_nonlast_le_or_single_line` at a concrete input. -/
theorem chunk_nonlast_le_or_single_line_wit :
    0 < 5 ∧ (∀ c ∈ (chunk "XXXXXXX\nY".data 5).dropLast,
      c.length ≤ 5 ∨ c ∈ splitlinesKeepends "XXXXXXX\nY".data) :=
  ⟨by decide, chunk_nonlast_le_or_single_line "XXXXXXX\nY".data 5 (by decide)⟩

/-- Counterexample to C8 as stated: the nonempty input `XXXXXXX` with
maxLength 5 produces an empty chunk (the initial accumulator is closed
while still empty because the first line alone exceeds the bound). -/
theorem chunk_no_empty_cex :
    0 < 5 ∧ "XXXXXXX".data ≠ [] ∧ [] ∈ chunk "XXXXXXX".data 5 := by
  decide

/-- C8 amended: the empty input produces exactly one empty chunk; no
chunk after the first is ever empty; and the first chunk is empty for a
nonempty input only when the input's first line is longer than
maxLength. -/
theorem chunk_empty_chunks (maxLen : Nat) (h : 0 < maxLen) :
    chunk [] maxLen = [[]] ∧
    (∀ text : List Char, ∀ c ∈ (chunk text maxLen).tail, c ≠ []) ∧
    (∀ (text l : List Char) (ls : List (List Char)),
      splitlinesKeepends text = l :: ls →
      (chunk text maxLen).head? = some [] → maxLen < l.length) := by
  refine ⟨rfl, ?_, ?_⟩
  · intro text c hc
    unfold chunk at hc
    cases hsp : splitlinesKeepends text with
    | nil => rw [hsp] at hc; simp [chunkLoop] at hc
    | cons l ls =>
      rw [hsp] at hc
      have hl : l ≠ [] :=
        splitlinesKeepends_ne_nil text l (hsp ▸ List.mem_cons_self l ls)
      have hls : ∀ x ∈ ls, x ≠ [] :=
        fun x hx => splitlinesKeepends_ne_nil text x (hsp ▸ List.mem_cons_of_mem l hx)
      rw [chunkLoop] at hc
      split at hc
      · exact chunkLoop_all_ne_nil maxLen ls l hl hls c hc
      · refine chunkLoop_all_ne_nil maxLen ls ([] ++ l) (by simpa using hl) hls c ?_
        exact List.mem_of_mem_tail hc
  · intro text l ls hsp hhead
    by_contra hlen
    push_neg at hlen
    unfold chunk at hhead
    rw [hsp, chunkLoop, if_neg (by simpa using Nat.not_lt.mpr hlen)] at hhead
    have hl : l ≠ [] :=
      splitlinesKeepends_ne_nil text l (hsp ▸ List.mem_cons_self l ls)
    have hls : ∀ x ∈ ls, x ≠ [] :=
      fun x hx => splitlinesKeepends_ne_nil text x (hsp ▸ List.mem_cons_of_mem l hx)
    cases hcl : chunkLoop maxLen ls ([] ++ l) with
    | nil => exact chunkLoop_ne_nil maxLen ls ([] ++ l) hcl
    | cons y ys =>
      rw [hcl] at hhead
      simp at hhead
      exact chunkLoop_all_ne_nil maxLen ls ([] ++ l) (by simpa using hl) hls []
        (by rw [hcl]; exact hhead ▸ List.mem_cons_self y ys) rfl

/-- Witness for `chunk_empty_chunks` at a concrete bound. -/
theorem chunk_empty_chunks_wit :
    0 < 5 ∧ (chunk [] 5 = [[]] ∧
    (∀ text : List Char, ∀ c ∈ (chunk text 5).tail, c ≠ []) ∧
    (∀ (text l : List Char) (ls : List (List Char)),
      splitlinesKeepends text = l :: ls →
      (chunk text 5).head? = some [] → 5 < l.length)) :=
  ⟨by decide, chunk_empty_chunks 5 (by decide)⟩

/-- C9: the Chunker's chunk count is minimal: every division of the text
into at least one chunk, splitting only at line boundaries and keeping
each chunk that is built from more than zero lines within maxLength,
has at least as many chunks as the Chunker produces. -/
theorem chunk_count_minimal (text : List Char) (maxLen : Nat)
    (P : List (List (List Char))) (h : 0 < maxLen) (hP : P ≠ [])
    (hjoin : P.flatten = splitlinesKeepends text)
    (hbound : ∀ g ∈ P, g ≠ [] → g.flatten.length ≤ maxLen) :
    (chunk text maxLen).length ≤ P.length := by
  unfold chunk
  rw [← hjoin]
  exact chunkLoop_minimal maxLen P hbound hP

/-- Witness for `chunk_count_minimal` at a concrete partition. -/
theorem chunk_count_minimal_wit :
    0 < 3 ∧ ([["ab\n".data], ["cd".data]] : List (List (List Char))) ≠ [] ∧
    ([["ab\n".data], ["cd".data]] : List (List (List Char))).flatten
      = splitlinesKeepends "ab\ncd".data ∧
    (∀ g ∈ ([["ab\n".data], ["cd".data]] : List (List (List Char))),
      g ≠ [] → g.flatten.length ≤ 3) ∧
    (chunk "ab\ncd".data 3).length ≤ 2 :=
  ⟨by decide, by decide, by decide, by decide,
    chunk_count_minimal "ab\ncd".data 3 [["ab\n".data], ["cd".data]]
      (by decide) (by decide) (by decide) (by decide)⟩

/-- Counterexample to C2 as stated: when the fetch fails with a network
error (not a not-found), `_create_or_fetch_lg_thread` does not propagate
the error; it swallows it and returns the created thread. -/
theorem create_or_fetch_masks_error_cex :
    (fun _ => (Except.error LgError.network : Except LgError LgThread)) "x".data
        = Except.error LgError.network ∧
    LgError.network ≠ LgError.notFound ∧
    create_or_fetch_lg_thread (fun _ => Except.error LgError.network)
      (fun _ => Except.ok ⟨"t".data⟩) "x".data = Except.ok ⟨"t".data⟩ ∧
    create_or_fetch_lg_thread (fun _ => Except.error LgError.network)
      (fun _ => Except.ok ⟨"t".data⟩) "x".data ≠ Except.error LgError.network := by
  refine ⟨rfl, by decide, rfl, ?_⟩
  intro h
  simp [create_or_fetch_lg_thread] at h

/-- C2 amended: every fetch failure, not-found or otherwise, is swallowed
by the bare `except Exception: pass`; the resolver always proceeds to
create the thread and returns whatever the create call yields. -/
theorem create_or_fetch_swallows_all
    (get create : List Char → Except LgError LgThread)
    (threadUuid : List Char) (e : LgError) (h : get threadUuid = .error e) :
    create_or_fetch_lg_thread get create threadUuid = create threadUuid := by
  unfold create_or_fetch_lg_thread
  rw [h]

/-- Witness for `create_or_fetch_swallows_all` at a concrete input. -/
theorem create_or_fetch_swallows_all_wit :
    (fun _ => (Except.error LgError.auth : Except LgError LgThread)) "y".data
        = Except.error LgError.auth ∧
    create_or_fetch_lg_thread (fun _ => Except.error LgError.auth)
        (fun _ => Except.ok ⟨"u".data⟩) "y".data
      = (fun _ => (Except.ok ⟨"u".data⟩ : Except LgError LgThread)) "y".data :=
  ⟨rfl, create_or_fetch_swallows_all (fun _ => Except.error LgError.auth)
    (fun _ => Except.ok ⟨"u".data⟩) "y".data LgError.auth rfl⟩

/-- C4: the remote-thread id is a pure deterministic function of the
scope key: equal guild ids give an identical id, and the id is exactly
the hash of the fixed namespace constant with the literal string form
of the scope key, with no other input. -/
theorem deriveLgThreadId_deterministic
    (uuid5 : List Char → List Char → List Char) (g1 g2 : Option Nat)
    (h : g1 = g2) :
    deriveLgThreadId uuid5 g1 = deriveLgThreadId uuid5 g2 ∧
    deriveLgThreadId uuid5 g1
      = uuid5 NAMESPACE_DNS ("DISCORD_GUILD:".data ++ pyGuildIdStr g1) :=
  ⟨by rw [h], rfl⟩

/-- Witness for `deriveLgThreadId_deterministic` at a concrete scope. -/
theorem deriveLgThreadId_deterministic_wit :
    (some 5 : Option Nat) = some 5 ∧
    (deriveLgThreadId (fun a b => a ++ b) (some 5)
        = deriveLgThreadId (fun a b => a ++ b) (some 5) ∧
      deriveLgThreadId (fun a b => a ++ b) (some 5)
        = (fun a b => a ++ b) NAMESPACE_DNS
            ("DISCORD_GUILD:".data ++ pyGuildIdStr (some 5))) :=
  ⟨rfl, deriveLgThreadId_deterministic (fun a b => a ++ b) (some 5) (some 5) rfl⟩

/-- C10: a message authored by the bot itself is ignored: `on_message`
returns immediately and never dispatches command processing. -/
theorem on_message_ignores_self (env : MsgEnv) (h : env.authorIsBot = true) :
    MsgEffect.processCommands ∉ on_message env ∧ on_message env = [] := by
  unfold on_message
  rw [if_pos h]
  exact ⟨List.not_mem_nil _, rfl⟩

/-- Witness for `on_message_ignores_self` at a concrete message. -/
theorem on_message_ignores_self_wit :
    (MsgEnv.mk true 3).authorIsBot = true ∧
    (MsgEffect.processCommands ∉ on_message (MsgEnv.mk true 3) ∧
      on_message (MsgEnv.mk true 3) = []) :=
  ⟨rfl, on_message_ignores_self (MsgEnv.mk true 3) rfl⟩

/-- The effects of `_get_shared_thread` are `[]` or a single thread
creation; in particular it sends no message and makes no remote call. -/
theorem get_shared_thread_fx_shape (env : RecipeEnv) :
    (get_shared_thread env).1 = [] ∨
    (get_shared_thread env).1 = [Effect.dCreateThread SHARED_THREAD_NAME] := by
  unfold get_shared_thread
  split_ifs <;> simp

/-- Send extraction distributes over trace concatenation. -/
theorem sends_append (a b : List Effect) : sends (a ++ b) = sends a ++ sends b :=
  List.filterMap_append a b sendOf

/-- The chunk-send loop attempts every chunk, in order, whatever the
per-send failures are. -/
theorem deliverChunks_sends (env : RecipeEnv) (tgt : Target) :
    ∀ (cs : List (List Char)) (k : Nat),
      sends (deliverChunks env tgt cs k) = cs.map (fun c => (tgt, c)) := by
  intro cs
  induction cs with
  | nil => intro k; rfl
  | cons c rest ih =>
    intro k
    rw [deliverChunks]
    cases h : env.sendFails k <;>
      · simp [h, sends, sendOf, List.filterMap_append]
        exact ih (k + 1)

/-- The chunk-send loop logs a failure exactly for the failing chunk
indices. -/
theorem deliverChunks_errlogs (env : RecipeEnv) (tgt : Target) :
    ∀ (cs : List (List Char)) (k : Nat),
      (deliverChunks env tgt cs k).filter isSendErrLog
        = ((List.range' k cs.length).filter env.sendFails).map Effect.sendErrLog := by
  intro cs
  induction cs with
  | nil => intro k; rfl
  | cons c rest ih =>
    intro k
    rw [deliverChunks]
    simp only [List.length_cons, List.range'_succ]
    cases h : env.sendFails k <;>
      simp [h, List.filter_append, isSendErrLog, ih (k + 1)]

/-- Unfolding of the post-resolution pipeline when the agent run
succeeds and returns at least one message. -/
theorem recipeAfterResolve_run_ok (env : RecipeEnv) (q : List Char) (tgt : Target)
    (fx : List Effect) (lgt : LgThread) (response : List Char)
    (hrun : env.runFails = false)
    (hmsg : env.runMessages.getLast? = some response) :
    recipeAfterResolve env q tgt fx lgt
      = fx ++ [.lgRun lgt.threadId q env.userId] ++ deliver env tgt response := by
  simp [recipeAfterResolve, hrun, hmsg]

/-- A response within the limit is delivered by a single send. -/
theorem deliver_short (env : RecipeEnv) (tgt : Target) (response : List Char)
    (hlen : response.length ≤ DISCORD_MAX_LENGTH) :
    deliver env tgt response
      = [.dSend tgt response] ++ (if env.sendFails 0 then [.sendErrLog 0] else []) := by
  rw [deliver, if_neg (Nat.not_lt.mpr hlen)]

/-- An oversized response is delivered through the chunk loop. -/
theorem deliver_long (env : RecipeEnv) (tgt : Target) (response : List Char)
    (hlen : DISCORD_MAX_LENGTH < response.length) :
    deliver env tgt response
      = deliverChunks env tgt (chunk response DISCORD_MAX_LENGTH) 0 := by
  rw [deliver, if_pos hlen]

/-- Unfolding of `recipe` on a nonempty question, for each fetch/create
outcome that reaches the agent run. -/
theorem recipe_main_unfold (uuid5 : List Char → List Char → List Char)
    (env : RecipeEnv) (q : List Char)
    (hq : env.question = some q) (hne : q ≠ [])
    (hcf : env.lgGetFails = true → env.lgCreateFails = false) :
    recipe uuid5 env
      = recipeAfterResolve env q (get_shared_thread env).2
          ((get_shared_thread env).1
            ++ if env.lgGetFails then
                [.lgGet (deriveLgThreadId uuid5 env.guildId),
                 .lgCreate (deriveLgThreadId uuid5 env.guildId)]
              else [.lgGet (deriveLgThreadId uuid5 env.guildId)])
          (if env.lgGetFails then env.lgCreatedThread else env.lgGotThread) := by
  have hcond : ¬ (env.question = none ∨ env.question = some []) := by
    rw [hq]
    rintro (h | h)
    · exact Option.noConfusion h
    · exact hne (Option.some.inj h)
  rw [recipe, if_neg hcond]
  cases hget : env.lgGetFails with
  | false => simp [hq]
  | true => simp [hq, hcf hget]

/-- C5: an empty or absent question makes the pipeline send exactly one
usage-hint message to the bound delivery target and perform zero
remote-agent calls. -/
theorem recipe_empty_question_hint_only
    (uuid5 : List Char → List Char → List Char) (env : RecipeEnv)
    (h : env.question = none ∨ env.question = some []) :
    sends (recipe uuid5 env) = [((get_shared_thread env).2, USAGE_HINT)] ∧
    (recipe uuid5 env).filter isRemoteCall = [] := by
  rw [recipe, if_pos h]
  rcases get_shared_thread_fx_shape env with hg | hg <;>
    cases hh : env.hintSendFails <;>
    simp [hg, hh, sends, sendOf, isRemoteCall, List.filterMap_append, List.filter_append]

/-- Concrete environment for the `recipe_empty_question_hint_only`
witness: a request with no question. -/
def emptyQuestionEnv : RecipeEnv :=
  RecipeEnv.mk none (some 1) 2 false false false false ⟨"t".data⟩ ⟨"t".data⟩
    false [] (fun _ => false) false

/-- Witness for `recipe_empty_question_hint_only`. -/
theorem recipe_empty_question_hint_only_wit :
    (emptyQuestionEnv.question = none ∨ emptyQuestionEnv.question = some []) ∧
    (sends (recipe (fun a b => b) emptyQuestionEnv)
        = [((get_shared_thread emptyQuestionEnv).2, USAGE_HINT)] ∧
      (recipe (fun a b => b) emptyQuestionEnv).filter isRemoteCall = []) :=
  ⟨Or.inl rfl, recipe_empty_question_hint_only (fun a b => b) emptyQuestionEnv (Or.inl rfl)⟩

/-- C6: when the agent's answer fits in `DISCORD_MAX_LENGTH`, delivery is
exactly one outbound send whose content is the answer verbatim, and the
chunked path (with its pacing sleeps) is never entered. -/
theorem recipe_short_answer_single_send
    (uuid5 : List Char → List Char → List Char) (env : RecipeEnv)
    (q response : List Char)
    (hq : env.question = some q) (hne : q ≠ [])
    (hcf : env.lgGetFails = true → env.lgCreateFails = false)
    (hrun : env.runFails = false)
    (hmsg : env.runMessages.getLast? = some response)
    (hlen : response.length ≤ DISCORD_MAX_LENGTH) :
    sends (recipe uuid5 env) = [((get_shared_thread env).2, response)] ∧
    Effect.sleepOne ∉ recipe uuid5 env := by
  rw [recipe_main_unfold uuid5 env q hq hne hcf,
      recipeAfterResolve_run_ok env q _ _ _ response hrun hmsg,
      deliver_short env _ response hlen]
  rcases get_shared_thread_fx_shape env with hg | hg <;>
    cases hgf : env.lgGetFails <;>
    cases hsf : env.sendFails 0 <;>
    simp [hg, hgf, hsf, sends, sendOf, List.filterMap_append]

/-- Concrete environment for the `recipe_short_answer_single_send`
witness: a 2-character answer. -/
def shortAnswerEnv : RecipeEnv :=
  RecipeEnv.mk (some "hi".data) (some 1) 2 true true false false ⟨"t".data⟩ ⟨"t".data⟩
    false ["ok".data] (fun _ => false) false

/-- Witness for `recipe_short_answer_single_send`. -/
theorem recipe_short_answer_single_send_wit :
    shortAnswerEnv.question = some "hi".data ∧ "hi".data ≠ [] ∧
    (shortAnswerEnv.lgGetFails = true → shortAnswerEnv.lgCreateFails = false) ∧
    shortAnswerEnv.runFails = false ∧
    shortAnswerEnv.runMessages.getLast? = some "ok".data ∧
    "ok".data.length ≤ DISCORD_MAX_LENGTH ∧
    (sends (recipe (fun a b => b) shortAnswerEnv)
        = [((get_shared_thread shortAnswerEnv).2, "ok".data)] ∧
      Effect.sleepOne ∉ recipe (fun a b => b) shortAnswerEnv) :=
  ⟨rfl, by decide, fun _ => rfl, rfl, by decide, by decide,
    recipe_short_answer_single_send (fun a b => b) shortAnswerEnv "hi".data "ok".data
      rfl (by decide) (fun _ => rfl) rfl (by decide) (by decide)⟩

/-- C7: in a chunked delivery, every chunk is attempted in order whatever
the per-chunk transport failures are, and a failure is logged exactly
for the failing chunk indices. -/
theorem recipe_chunked_sends_all_chunks
    (uuid5 : List Char → List Char → List Char) (env : RecipeEnv)
    (q response : List Char)
    (hq : env.question = some q) (hne : q ≠ [])
    (hcf : env.lgGetFails = true → env.lgCreateFails = false)
    (hrun : env.runFails = false)
    (hmsg : env.runMessages.getLast? = some response)
    (hlen : DISCORD_MAX_LENGTH < response.length) :
    sends (recipe uuid5 env)
      = (chunk response DISCORD_MAX_LENGTH).map
          (fun c => ((get_shared_thread env).2, c)) ∧
    (recipe uuid5 env).filter isSendErrLog
      = ((List.range (chunk response DISCORD_MAX_LENGTH).length).filter
          env.sendFails).map Effect.sendErrLog := by
  rw [recipe_main_unfold uuid5 env q hq hne hcf,
      recipeAfterResolve_run_ok env q _ _ _ response hrun hmsg,
      deliver_long env _ response hlen, List.range_eq_range']
  rcases get_shared_thread_fx_shape env with hg | hg <;>
    cases hgf : env.lgGetFails <;>
    simp [hg, hgf, sends, sendOf, isSendErrLog, List.filterMap_append,
      List.filter_append, deliverChunks_errlogs]
  all_goals
    exact deliverChunks_sends env (get_shared_thread env).2
      (chunk response DISCORD_MAX_LENGTH) 0

/-- Concrete environment for the `recipe_chunked_sends_all_chunks`
witness: a 2001-character answer whose second chunk send fails. -/
def chunkedAnswerEnv : RecipeEnv :=
  RecipeEnv.mk (some "hi".data) (some 1) 2 true true false false ⟨"t".data⟩ ⟨"t".data⟩
    false [List.replicate 2001 'a'] (fun k => k == 1) false

/-- Witness for `recipe_chunked_sends_all_chunks`. -/
theorem recipe_chunked_sends_all_chunks_wit :
    chunkedAnswerEnv.question = some "hi".data ∧ "hi".data ≠ [] ∧
    (chunkedAnswerEnv.lgGetFails = true → chunkedAnswerEnv.lgCreateFails = false) ∧
    chunkedAnswerEnv.runFails = false ∧
    chunkedAnswerEnv.runMessages.getLast? = some (List.replicate 2001 'a') ∧
    DISCORD_MAX_LENGTH < (List.replicate 2001 'a').length ∧
    (sends (recipe (fun a b => b) chunkedAnswerEnv)
        = (chunk (List.replicate 2001 'a') DISCORD_MAX_LENGTH).map
            (fun c => ((get_shared_thread chunkedAnswerEnv).2, c)) ∧
      (recipe (fun a b => b) chunkedAnswerEnv).filter isSendErrLog
        = ((List.range (chunk (List.replicate 2001 'a') DISCORD_MAX_LENGTH).length).filter
            chunkedAnswerEnv.sendFails).map Effect.sendErrLog) :=
  ⟨rfl, by decide, fun _ => rfl, rfl, rfl,
    by rw [List.length_replicate]; decide,
    recipe_chunked_sends_all_chunks (fun a b => b) chunkedAnswerEnv
      "hi".data (List.replicate 2001 'a') rfl (by decide) (fun _ => rfl) rfl rfl
      (by rw [List.length_replicate]; decide)⟩
